import Mathlib

/-!
A verification development for the shorts-generator app (`src/app.py`).

The app is a Streamlit script.  Its pure/sequential logic is embedded shallowly:

* numbers that Python handles as ints/floats are embedded as `ℚ` (all the
  arithmetic the app performs on them — comparison and one exact division —
  is exact, so `ℚ` is a faithful carrier);
* Python strings become `String` (or `List Char` where per-character
  operations matter);
* calls that can raise become `Except`-valued functions, and remote responses
  whose parsing can fail are abstracted by a parse function returning `Option`;
* the module-level Streamlit block (lines 100–128 of `app.py`) becomes a step
  function on an explicit session-state record; one script rerun that picks up
  a job is one `process_queue` step, and the nondeterministic choice of which
  collaborator outcome occurred is an explicit `RunOutcome` argument;
* `ThreadPoolExecutor`/`as_completed` nondeterminism is captured by an `order`
  argument listing the indices of the submitted tasks in completion order;
* the `update_progress` callback is modelled by returning the list of values
  it is called with, in call order.
-/

set_option linter.unusedVariables false

namespace ShortsApp

/-- A segment candidate as produced by `analyze_video_with_groq`
(`{"start": seconds, "end": seconds, "viral_score": score}`). -/
structure Seg where
  start : ℚ
  «end» : ℚ
  viral_score : ℚ
deriving DecidableEq

/-- A rendered short as returned by `process_segment`
(`{"file": subtitled_file, "viral_score": seg["viral_score"]}`). -/
structure Short where
  file : String
  viral_score : ℚ
deriving DecidableEq

/-- A queued job (`{"id": job_id, "url": youtube_url}`, line 101). -/
structure Job where
  id : String
  url : String
deriving DecidableEq

/-- A successful job result (`{"shorts": shorts, "zip": zip_file}`, line 121).
The failure marker stored on the empty-candidates path (line 125) is `none`
at type `Option JobResult`. -/
structure JobResult where
  shorts : List Short
  zip : String
deriving DecidableEq

/-- The character substitution of `.replace("\n", " ")`: `"\n"` is a
single-character substring replaced by the single character `" "`, so on a
`List Char` embedding it is a pointwise map. -/
def collapseNewline (c : Char) : Char :=
  if c = '\n' then ' ' else c

/-- Line 60 of `process_segment`:
`caption_text = transcript[:200].replace("\n", " ")` — truncate to the first
200 characters, then replace newlines by spaces. -/
def caption_text (transcript : List Char) : List Char :=
  (transcript.take 200).map collapseNewline

/-- The caption as the spec phrases it: the transcript with every newline
replaced by a space, truncated to at most 200 characters (replace first, then
truncate).  Stated separately so that agreement with the source order of
operations (`caption_text`) is a theorem, not a definition. -/
def spec_caption (transcript : List Char) : List Char :=
  (transcript.map collapseNewline).take 200

/-- `process_segment(video_path, seg, transcript, idx)` (lines 56–67).  The two
ffmpeg subprocess calls only produce files on disk; the value returned to the
coordinator is the dict `{"file": subtitled_file, "viral_score":
seg["viral_score"]}` with `subtitled_file = f"short_{idx+1}_subtitled.mp4"`. -/
def process_segment (video_path : String) (seg : Seg) (transcript : List Char)
    (idx : Nat) : Short :=
  { file := "short_" ++ toString (idx + 1) ++ "_subtitled.mp4"
    viral_score := seg.viral_score }

/-- One insertion step of a stable descending-by-`viral_score` sort: the new
element `a` (earlier in the list being sorted) goes in front of every element
whose score is `≤` its own, so equal scores keep their original order. -/
def insertDesc (a : Short) : List Short → List Short
  | [] => [a]
  | b :: t => if b.viral_score ≤ a.viral_score then a :: b :: t else b :: insertDesc a t

/-- Model of `sorted(shorts, key=lambda x: x["viral_score"], reverse=True)`
(line 77).  Python's `sorted` is a stable sort by the key, descending under
`reverse=True` (ties keep the order of the input list, they are not reversed).
A stable sort with a fixed comparison is unique as a function of its input, so
this insertion sort computes exactly the list Python's Timsort returns. -/
def sortedByScoreDesc : List Short → List Short
  | [] => []
  | a :: t => insertDesc a (sortedByScoreDesc t)

/-- The order the sort of line 77 establishes: descending `viral_score`. -/
def scoreGE (a b : Short) : Prop :=
  b.viral_score ≤ a.viral_score

/-- The rendered shorts in completion order: `as_completed(futures)` yields the
futures in the order given by `order` (each entry an index into `segments`),
and line 75 appends `future.result()` for each. -/
def completionShorts (video_path : String) (segments : List Seg)
    (transcript : List Char) (order : List Nat) : List Short :=
  order.filterMap fun idx =>
    (segments[idx]?).map fun seg => process_segment video_path seg transcript idx

/-- The rendered shorts in encounter order of the candidate list (the order
`enumerate(segments)` submits them, line 73). -/
def encounterShorts (video_path : String) (segments : List Seg)
    (transcript : List Char) : List Short :=
  completionShorts video_path segments transcript (List.range segments.length)

/-- `create_shorts_parallel(video_path, segments, transcript, update_progress)`
(lines 69–77).  `order` is the completion order chosen by the thread pool.
Returns the value of the function (the score-sorted shorts) together with the
list of values passed to `update_progress`: after the `count`-th completed
future the loop calls `update_progress(count / total)`, `count = 1, 2, …`. -/
def create_shorts_parallel (video_path : String) (segments : List Seg)
    (transcript : List Char) (order : List Nat) : List Short × List ℚ :=
  let total := segments.length
  let completed := completionShorts video_path segments transcript order
  let progress := (List.range completed.length).map
    fun count : ℕ => ((count : ℚ) + 1) / (total : ℚ)
  (sortedByScoreDesc completed, progress)

/-- An exception raised by a `requests.post` call (connection error, timeout,
…); carried as an opaque message. -/
abbrev ApiError := String

/-- `generate_subtitles(video_path)` (lines 25–37), from the point where the
Whisper request is issued.  `postResult` models `requests.post` — `.error`
when it raises, `.ok response` when a response came back; `parseText response`
models `response.json()["text"]` — `none` when that expression raises (the
body is not JSON, or has no `"text"` key), in which case the bare `except`
on line 36 returns the literal sentinel instead. -/
def generate_subtitles (postResult : Except ApiError String)
    (parseText : String → Option String) : Except ApiError String :=
  match postResult with
  | .error e => .error e
  | .ok response =>
    match parseText response with
    | some t => .ok t
    | none => .ok "Transcript not available."

/-- `analyze_video_with_groq(transcript)` (lines 39–54).  `postResult` models
the `requests.post` to the Groq API — `.error` when it raises (that call is
outside the `try`, so such an error propagates); `parseChoices response`
models `json.loads(response.json()["choices"][0]["text"])` — `none` when that
raises, in which case the bare `except` on line 53 returns `[]`. -/
def analyze_video_with_groq (postResult : Except ApiError String)
    (parseChoices : String → Option (List Seg)) : Except ApiError (List Seg) :=
  match postResult with
  | .error e => .error e
  | .ok response =>
    match parseChoices response with
    | some segs => .ok segs
    | none => .ok []

/-- The Streamlit session state (lines 90–95): `st.session_state.queue`,
`st.session_state.results` (a dict, embedded as an association list in
insertion order), `st.session_state.processing`. -/
structure AppState where
  queue : List Job
  results : List (String × Option JobResult)
  processing : Option String
deriving DecidableEq

/-- The freshly initialized session state (lines 90–95). -/
def sessionInit : AppState :=
  { queue := [], results := [], processing := none }

/-- Python dict assignment `d[k] = v`: overwrite on duplicate key, append
otherwise. -/
def dictSet (m : List (String × Option JobResult)) (k : String)
    (v : Option JobResult) : List (String × Option JobResult) :=
  match m with
  | [] => [(k, v)]
  | (k0, v0) :: t => if k0 = k then (k, v) :: t else (k0, v0) :: dictSet t k v

/-- Python dict lookup `d[k]` / `d.get(k)`: `none` when the key is absent. -/
def dictGet (m : List (String × Option JobResult)) (k : String) :
    Option (Option JobResult) :=
  match m with
  | [] => none
  | (k0, v0) :: t => if k0 = k then some v0 else dictGet t k

/-- Lines 100–101: the Submit button appends the new job at the tail of the
queue. -/
def submitJob (st : AppState) (job : Job) : AppState :=
  { st with queue := st.queue ++ [job] }

/-- What happened inside one execution of the processing block once a job was
dequeued.  The collaborator calls are external (network, subprocesses); their
outcome is an input of the model.

* `exn`: one of `download_youtube_video` (line 113), `generate_subtitles`
  (line 114, its `subprocess.run` or `requests.post` — only the response parse
  is inside its `try`), `analyze_video_with_groq` (line 115, its
  `requests.post`), or `create_shorts_parallel` (line 119, a render task's
  exception re-raised by `future.result()`) raised.  Nothing in lines 110–128
  catches it, so it escapes the script run.
* `ok segments transcript order`: every call returned; `generate_subtitles`
  returned `transcript`, `analyze_video_with_groq` returned `segments`, and
  (when `segments` is nonempty) the renders all succeeded, completing in the
  order `order`. -/
inductive RunOutcome where
  | exn : RunOutcome
  | ok (segments : List Seg) (transcript : List Char) (order : List Nat) : RunOutcome
deriving DecidableEq

/-- The observable effect of one run of the queue-processing block
(lines 104–128): the resulting session state, the number of times line 128
(`st.session_state.processing = None`) executed during the run, and the value
taken by `current_job` (`none` when the guard on line 105 failed and nothing
was dequeued). -/
structure StepResult where
  state : AppState
  slotReleases : Nat
  dequeued : Option Job
deriving DecidableEq

/-- Lines 104–128, the module-level queue processing block.  If the processor
is idle and the queue is nonempty, pop the head, mark it processing, run the
collaborators; on `segments` nonempty store `{"shorts": …, "zip": …}`, on
empty store the failure marker `None`; **only on those two paths** does control
reach line 128, which frees the slot.  When `out = .exn` the exception
propagates out of the block and line 128 never executes. -/
def process_queue (st : AppState) (out : RunOutcome) : StepResult :=
  match st.processing, st.queue with
  | none, current_job :: rest =>
    let held : AppState :=
      { st with queue := rest, processing := some current_job.id }
    match out with
    | .exn => { state := held, slotReleases := 0, dequeued := some current_job }
    | .ok segments transcript order =>
      if segments ≠ [] then
        let shorts :=
          (create_shorts_parallel "video.mp4" segments transcript order).1
        let zip_file := "shorts_bundle.zip"
        { state :=
            { held with
              results :=
                dictSet held.results current_job.id
                  (some { shorts := shorts, zip := zip_file })
              processing := none }
          slotReleases := 1
          dequeued := some current_job }
      else
        { state :=
            { held with
              results := dictSet held.results current_job.id none
              processing := none }
          slotReleases := 1
          dequeued := some current_job }
  | _, _ => { state := st, slotReleases := 0, dequeued := none }

/-- An externally visible event of one session: a submission (lines 100–102)
or one execution of the processing block (lines 104–128). -/
inductive Event where
  | submit (job : Job) : Event
  | process (out : RunOutcome) : Event

/-- The session-state transition of one event. -/
def step (st : AppState) : Event → AppState
  | .submit job => submitJob st job
  | .process out => (process_queue st out).state

/-- Run a sequence of events from a given state. -/
def run (st : AppState) (es : List Event) : AppState :=
  es.foldl step st

/-- How many jobs the `processing` slot holds (it is a single
`Option`-valued variable, so 0 or 1). -/
def processingCount (st : AppState) : Nat :=
  match st.processing with
  | none => 0
  | some _ => 1

/-! ## Helper lemmas -/

/-- Dict write-then-read at the same key returns the value just written. -/
theorem dictGet_dictSet (m : List (String × Option JobResult)) (k : String)
    (v : Option JobResult) : dictGet (dictSet m k v) k = some v := by
  induction m with
  | nil => simp [dictSet, dictGet]
  | cons p t ih =>
    obtain ⟨k0, v0⟩ := p
    by_cases h : k0 = k
    · simp [dictSet, dictGet, h]
    · simp [dictSet, dictGet, h, ih]

/-- When every index of `order` is in range, each future resolves and
`completionShorts` has one short per entry of `order`. -/
theorem completionShorts_length (video_path : String) (segments : List Seg)
    (transcript : List Char) (order : List Nat)
    (h : ∀ i ∈ order, i < segments.length) :
    (completionShorts video_path segments transcript order).length =
      order.length := by
  induction order with
  | nil => rfl
  | cons i t ih =>
    have hi : i < segments.length := h i (List.mem_cons_self i t)
    obtain ⟨seg, hseg⟩ : ∃ seg, segments[i]? = some seg :=
      ⟨segments[i], List.getElem?_eq_getElem hi⟩
    simp only [completionShorts, List.filterMap_cons, hseg, Option.map_some]
    simpa [completionShorts] using ih fun j hj => h j (List.mem_cons_of_mem i hj)

/-! ## Claims -/

/-- **C9.** For every transcript, the caption burned into a rendered segment
(line 60: `transcript[:200].replace("\n", " ")`) equals the transcript with
every newline replaced by a space, truncated to at most 200 characters; it
never exceeds 200 characters and contains no newline. -/
theorem C9_caption_bounded (transcript : List Char) :
    caption_text transcript = spec_caption transcript ∧
    (caption_text transcript).length ≤ 200 ∧
    '\n' ∉ caption_text transcript := by
  refine ⟨?_, ?_, ?_⟩
  · simp [caption_text, spec_caption, List.map_take]
  · simp [caption_text]
  · intro hmem
    simp only [caption_text, List.mem_map] at hmem
    obtain ⟨c, _, hc⟩ := hmem
    by_cases h : c = '\n' <;> simp [collapseNewline, h] at hc

/-- **C10.** With an empty segment list, `create_shorts_parallel` returns the
empty list of shorts and the progress callback is never invoked (the returned
call list is empty), whatever completion order the pool would produce — so
`count / total` with `total = 0` is never evaluated. -/
theorem C10_empty_segments (video_path : String) (transcript : List Char)
    (order : List Nat) :
    create_shorts_parallel video_path [] transcript order = ([], []) := by
  have hcs : completionShorts video_path [] transcript order = [] := by
    induction order with
    | nil => rfl
    | cons i t ih => simp [completionShorts]
  simp [create_shorts_parallel, hcs, sortedByScoreDesc]

/-- **C8.** When the Whisper response cannot be parsed as a transcript
(`response.json()["text"]` raises), `generate_subtitles` does not raise: it
returns the literal sentinel `"Transcript not available."`; when it parses,
the parsed transcript text is returned. -/
theorem C8_transcript_sentinel (response : String)
    (parseText : String → Option String) :
    (parseText response = none →
      generate_subtitles (Except.ok response) parseText =
        Except.ok "Transcript not available.") ∧
    (∀ t, parseText response = some t →
      generate_subtitles (Except.ok response) parseText = Except.ok t) := by
  constructor
  · intro h; simp [generate_subtitles, h]
  · intro t h; simp [generate_subtitles, h]

/-- Witness for C8 at a concrete unparseable response. -/
theorem C8_transcript_sentinel_witness :
    generate_subtitles (Except.ok "<html>503</html>") (fun _ => none) =
      Except.ok "Transcript not available." :=
  (C8_transcript_sentinel "<html>503</html>" (fun _ => none)).1 rfl

/-- **C7, counterexample.** The claim says every scoring-step failure —
including unparseable content — makes `analyze_video_with_groq` raise.  On an
unparseable response the bare `except` on line 53 catches the parse error and
the function returns the empty list: a normal value, not an exception. -/
theorem C7_counterexample :
    analyze_video_with_groq (Except.ok "I cannot answer that.") (fun _ => none) =
      Except.ok [] := rfl

/-- **C7, amended.** A failure of the scoring `requests.post` call itself
propagates uncaught, but unparseable scoring content is caught inside
`analyze_video_with_groq` and converted to the empty candidate list (a normal
return, which then produces the job failure marker); parseable content is
returned as parsed. -/
theorem C7_amended_scoring_propagation (e : ApiError) (response : String)
    (parseChoices : String → Option (List Seg)) :
    analyze_video_with_groq (Except.error e) parseChoices = Except.error e ∧
    (parseChoices response = none →
      analyze_video_with_groq (Except.ok response) parseChoices =
        Except.ok []) ∧
    (∀ segs, parseChoices response = some segs →
      analyze_video_with_groq (Except.ok response) parseChoices =
        Except.ok segs) := by
  refine ⟨rfl, ?_, ?_⟩
  · intro h; simp [analyze_video_with_groq, h]
  · intro segs h; simp [analyze_video_with_groq, h]

/-- Witness for the amended C7 at a concrete unparseable response. -/
theorem C7_amended_scoring_propagation_witness :
    analyze_video_with_groq (Except.ok "not json") (fun _ => none) =
      Except.ok [] :=
  (C7_amended_scoring_propagation "err" "not json" (fun _ => none)).2.1 rfl

/-- **C6.** When scoring returns the empty candidate list, the value stored in
`st.session_state.results` under the job's id is the explicit failure marker
`None` (line 125), not an empty-but-successful result. -/
theorem C6_empty_candidates_failure_marker (st : AppState) (j : Job)
    (rest : List Job) (transcript : List Char) (order : List Nat)
    (hidle : st.processing = none) (hq : st.queue = j :: rest) :
    dictGet (process_queue st (RunOutcome.ok [] transcript order)).state.results
      j.id = some none := by
  obtain ⟨q, results, processing⟩ := st
  cases hq
  cases hidle
  simpa [process_queue] using dictGet_dictSet results j.id none

/-- Witness for C6 at a concrete state. -/
theorem C6_empty_candidates_failure_marker_witness :
    dictGet (process_queue
        { queue := [{ id := "job-1", url := "u" }], results := [],
          processing := none }
        (RunOutcome.ok [] [] [])).state.results "job-1" = some none :=
  C6_empty_candidates_failure_marker
    { queue := [{ id := "job-1", url := "u" }], results := [], processing := none }
    { id := "job-1", url := "u" } [] [] [] rfl rfl

/-- **C2.** At most one job is ever in the processing state: along every event
sequence from the initial session state the processing slot holds at most one
job id, and whenever the slot is occupied the processing block is a no-op (no
job is dequeued, nothing changes) — a queued job is only dequeued and marked
processing when the slot is idle. -/
theorem C2_single_processing (es : List Event) :
    processingCount (run sessionInit es) ≤ 1 ∧
    (∀ (st : AppState) (out : RunOutcome), st.processing ≠ none →
      process_queue st out =
        { state := st, slotReleases := 0, dequeued := none }) := by
  constructor
  · cases h : (run sessionInit es).processing <;> simp [processingCount, h]
  · intro st out hbusy
    obtain ⟨q, results, processing⟩ := st
    cases processing with
    | none => exact absurd rfl hbusy
    | some id => cases q <;> rfl

/-- Witness for C2: with the slot held by `"busy"`, a processing step leaves
the state (including the queued job) untouched. -/
theorem C2_single_processing_witness :
    process_queue
        { queue := [{ id := "waiting", url := "u" }], results := [],
          processing := some "busy" }
        RunOutcome.exn =
      { state := { queue := [{ id := "waiting", url := "u" }], results := [],
                   processing := some "busy" },
        slotReleases := 0, dequeued := none } :=
  (C2_single_processing []).2
    { queue := [{ id := "waiting", url := "u" }], results := [],
      processing := some "busy" }
    RunOutcome.exn (by simp)

/-- **C5.** FIFO discipline: submission appends the new job at the tail of the
queue (line 101), and when the processor is idle and the queue is nonempty the
job dequeued for processing (line 106, `queue.pop(0)`) is the head — the
earliest-submitted job still queued. -/
theorem C5_fifo (st : AppState) (job : Job) (j : Job) (rest : List Job)
    (out : RunOutcome) :
    (submitJob st job).queue = st.queue ++ [job] ∧
    (st.processing = none → st.queue = j :: rest →
      (process_queue st out).dequeued = some j ∧
      (process_queue st out).state.queue = rest) := by
  refine ⟨rfl, ?_⟩
  intro hidle hq
  obtain ⟨q, results, processing⟩ := st
  cases hq
  cases hidle
  cases out with
  | exn => exact ⟨rfl, rfl⟩
  | ok segments transcript order =>
    by_cases hseg : segments = [] <;> simp [process_queue, hseg]

/-- Witness for C5 at a concrete two-job queue. -/
theorem C5_fifo_witness :
    (process_queue
        { queue := [{ id := "first", url := "u1" }, { id := "second", url := "u2" }],
          results := [], processing := none }
        RunOutcome.exn).dequeued = some { id := "first", url := "u1" } :=
  ((C5_fifo
      { queue := [{ id := "first", url := "u1" }, { id := "second", url := "u2" }],
        results := [], processing := none }
      { id := "x", url := "x" } { id := "first", url := "u1" }
      [{ id := "second", url := "u2" }] RunOutcome.exn).2 rfl rfl).1

/-- **C1, counterexample.** The claim says the processing slot is released on
*every* outcome path, including any failure raised by acquisition,
transcription, scoring or rendering.  The block (lines 110–128) has no
`try/finally`: when a collaborator raises, line 128 never executes.  From an
idle state with one queued job, a raising run leaves the slot held by that
job's id with zero releases — a missed release. -/
theorem C1_counterexample :
    (process_queue
        { queue := [{ id := "stuck", url := "u" }], results := [],
          processing := none }
        RunOutcome.exn).state.processing = some "stuck" ∧
    (process_queue
        { queue := [{ id := "stuck", url := "u" }], results := [],
          processing := none }
        RunOutcome.exn).slotReleases = 0 :=
  ⟨rfl, rfl⟩

/-- **C1, amended.** On the two non-raising outcome paths (successful render
and empty candidate list) the processing slot is set back to `None` exactly
once per dequeued job; but on any path where acquisition, transcription,
scoring or rendering raises, the slot is not released at all and remains held
by the failed job's id. -/
theorem C1_amended_slot_release (st : AppState) (j : Job) (rest : List Job)
    (out : RunOutcome) (hidle : st.processing = none)
    (hq : st.queue = j :: rest) :
    ((∃ segments transcript order, out = RunOutcome.ok segments transcript order) →
      (process_queue st out).slotReleases = 1 ∧
      (process_queue st out).state.processing = none) ∧
    (out = RunOutcome.exn →
      (process_queue st out).slotReleases = 0 ∧
      (process_queue st out).state.processing = some j.id) := by
  obtain ⟨q, results, processing⟩ := st
  cases hq
  cases hidle
  constructor
  · rintro ⟨segments, transcript, order, rfl⟩
    by_cases hseg : segments = [] <;> simp [process_queue, hseg]
  · rintro rfl
    exact ⟨rfl, rfl⟩

/-- Witness for the amended C1: a completed empty-candidates run releases the
slot exactly once. -/
theorem C1_amended_slot_release_witness :
    (process_queue
        { queue := [{ id := "done", url := "u" }], results := [],
          processing := none }
        (RunOutcome.ok [] [] [])).slotReleases = 1 :=
  ((C1_amended_slot_release
      { queue := [{ id := "done", url := "u" }], results := [],
        processing := none }
      { id := "done", url := "u" } [] (RunOutcome.ok [] [] []) rfl rfl).1
    ⟨[], [], [], rfl⟩).1

/-! ## Lemmas about the stable descending sort of line 77 -/

/-- Inserting an element produces a permutation of consing it. -/
theorem insertDesc_perm (a : Short) (l : List Short) :
    (insertDesc a l).Perm (a :: l) := by
  induction l with
  | nil => exact List.Perm.refl _
  | cons b t ih =>
    by_cases hba : b.viral_score ≤ a.viral_score
    · simp [insertDesc, hba]
    · simp only [insertDesc, hba, if_false]
      exact (ih.cons b).trans (List.Perm.swap a b t)

/-- The sort returns a permutation of its input. -/
theorem sortedByScoreDesc_perm (l : List Short) :
    (sortedByScoreDesc l).Perm l := by
  induction l with
  | nil => exact List.Perm.refl _
  | cons a t ih => exact (insertDesc_perm a (sortedByScoreDesc t)).trans (ih.cons a)

/-- Inserting into a descending-sorted list keeps it descending-sorted. -/
theorem sorted_insertDesc (a : Short) (l : List Short)
    (h : List.Sorted scoreGE l) : List.Sorted scoreGE (insertDesc a l) := by
  induction l with
  | nil => simp [insertDesc]
  | cons b t ih =>
    rw [List.sorted_cons] at h
    obtain ⟨hb, ht⟩ := h
    by_cases hba : b.viral_score ≤ a.viral_score
    · simp only [insertDesc, hba, if_true]
      rw [List.sorted_cons]
      refine ⟨?_, by rw [List.sorted_cons]; exact ⟨hb, ht⟩⟩
      intro x hx
      rcases List.mem_cons.mp hx with rfl | hx
      · exact hba
      · exact le_trans (hb x hx) hba
    · simp only [insertDesc, hba, if_false]
      rw [List.sorted_cons]
      refine ⟨?_, ih ht⟩
      intro x hx
      rcases List.mem_cons.mp ((insertDesc_perm a t).mem_iff.mp hx) with rfl | hx
      · exact le_of_lt (lt_of_not_le hba)
      · exact hb x hx

/-- The sort's output is descending in `viral_score`. -/
theorem sortedByScoreDesc_sorted (l : List Short) :
    List.Sorted scoreGE (sortedByScoreDesc l) := by
  induction l with
  | nil => simp [sortedByScoreDesc]
  | cons a t ih => exact sorted_insertDesc a (sortedByScoreDesc t) ih

/-- Stability, one insertion: restricted to any single score value `c`, an
insertion behaves exactly like consing (a strictly smaller-scored element is
never hopped over by an equal-scored one). -/
theorem filter_insertDesc (a : Short) (l : List Short) (c : ℚ) :
    (insertDesc a l).filter (fun s => decide (s.viral_score = c)) =
      ((a :: l).filter (fun s => decide (s.viral_score = c))) := by
  induction l with
  | nil => rfl
  | cons b t ih =>
    by_cases hba : b.viral_score ≤ a.viral_score
    · simp [insertDesc, hba]
    · have hab : a.viral_score < b.viral_score := lt_of_not_le hba
      simp only [insertDesc, hba, if_false]
      by_cases hpa : a.viral_score = c <;> by_cases hpb : b.viral_score = c
      · exact absurd (hpa.trans hpb.symm) (ne_of_lt hab)
      · simp [List.filter_cons, hpa, hpb, ih]
      · simp [List.filter_cons, hpa, hpb, ih]
      · simp [List.filter_cons, hpa, hpb, ih]

/-- Stability of the sort: for each score value, the subsequence of shorts
with that score is unchanged — ties keep the order of the sort's input
list. -/
theorem sortedByScoreDesc_filter (l : List Short) (c : ℚ) :
    (sortedByScoreDesc l).filter (fun s => decide (s.viral_score = c)) =
      l.filter (fun s => decide (s.viral_score = c)) := by
  induction l with
  | nil => rfl
  | cons a t ih =>
    rw [sortedByScoreDesc, filter_insertDesc, List.filter_cons,
      List.filter_cons, ih]

/-- **C3, counterexample.** The claim says equal-score shorts keep the
*encounter* order of the candidate list regardless of completion order.  Line
75 appends results in *completion* order and line 77's stable sort keeps ties
in the order of the list it is given, i.e. completion order.  With two
candidates of equal score and completion order `[1, 0]`, the short rendered
from the second candidate (`short_2_subtitled.mp4`) comes out first — the
claim demands `short_1_subtitled.mp4` first. -/
theorem C3_counterexample :
    ((create_shorts_parallel "v" [⟨0, 10, 50⟩, ⟨20, 30, 50⟩] [] [1, 0]).1.map
        Short.file) =
      ["short_2_subtitled.mp4", "short_1_subtitled.mp4"] ∧
    (["short_2_subtitled.mp4", "short_1_subtitled.mp4"] : List String) ≠
      ["short_1_subtitled.mp4", "short_2_subtitled.mp4"] := by
  constructor
  · rfl
  · decide

/-- **C3, amended.** For every candidate list and every completion-order
permutation, `create_shorts_parallel` returns the N rendered shorts sorted by
`viral_score` descending; any two shorts with equal `viral_score` appear in
the same relative order as their render tasks *completed* (stable with
respect to completion order, not encounter order), and the returned shorts
are a permutation of the shorts rendered from the candidate list. -/
theorem C3_amended_sorted_stable_by_completion (video_path : String)
    (segments : List Seg) (transcript : List Char) (order : List Nat)
    (h : order.Perm (List.range segments.length)) :
    List.Sorted scoreGE
      (create_shorts_parallel video_path segments transcript order).1 ∧
    (create_shorts_parallel video_path segments transcript order).1.Perm
      (completionShorts video_path segments transcript order) ∧
    (∀ c : ℚ,
      (create_shorts_parallel video_path segments transcript order).1.filter
          (fun s => decide (s.viral_score = c)) =
        (completionShorts video_path segments transcript order).filter
          (fun s => decide (s.viral_score = c))) ∧
    (completionShorts video_path segments transcript order).Perm
      (encounterShorts video_path segments transcript) := by
  refine ⟨sortedByScoreDesc_sorted _, sortedByScoreDesc_perm _,
    fun c => sortedByScoreDesc_filter _ c, ?_⟩
  exact h.filterMap _

/-- Witness for the amended C3: three candidates with scores `[40, 90, 10]`
finishing in order `[2, 0, 1]` still come out descending-sorted. -/
theorem C3_amended_sorted_stable_by_completion_witness :
    List.Sorted scoreGE
      (create_shorts_parallel "v"
        [⟨0, 10, 40⟩, ⟨20, 30, 90⟩, ⟨40, 50, 10⟩] [] [2, 0, 1]).1 :=
  (C3_amended_sorted_stable_by_completion "v"
    [⟨0, 10, 40⟩, ⟨20, 30, 90⟩, ⟨40, 50, 10⟩] [] [2, 0, 1] (by decide)).1

/-- **C4.** For a nonempty candidate list whose renders all succeed (the
completion order is a permutation of the N task indices), the progress
callback is invoked exactly N times, the k-th call passing `k / N` (so the
values are strictly increasing), and the final call passes exactly `1`. -/
theorem C4_progress_calls (video_path : String) (segments : List Seg)
    (transcript : List Char) (order : List Nat) (hne : segments ≠ [])
    (h : order.Perm (List.range segments.length)) :
    (create_shorts_parallel video_path segments transcript order).2 =
      (List.range segments.length).map
        (fun k : ℕ => ((k : ℚ) + 1) / (segments.length : ℚ)) ∧
    (create_shorts_parallel video_path segments transcript order).2.length =
      segments.length ∧
    List.Pairwise (· < ·)
      (create_shorts_parallel video_path segments transcript order).2 ∧
    (create_shorts_parallel video_path segments transcript order).2.getLast? =
      some 1 := by
  have hbound : ∀ i ∈ order, i < segments.length := by
    intro i hi
    exact List.mem_range.mp (h.mem_iff.mp hi)
  have hlen : (completionShorts video_path segments transcript order).length =
      segments.length := by
    rw [completionShorts_length video_path segments transcript order hbound,
      h.length_eq, List.length_range]
  have hN : (0 : ℚ) < (segments.length : ℚ) := by
    have : 0 < segments.length := List.length_pos.mpr hne
    exact_mod_cast this
  have hmain :
      (create_shorts_parallel video_path segments transcript order).2 =
        (List.range
            (completionShorts video_path segments transcript order).length).map
          (fun k : ℕ => ((k : ℚ) + 1) / (segments.length : ℚ)) := rfl
  rw [hlen] at hmain
  refine ⟨hmain, ?_, ?_, ?_⟩
  · rw [hmain, List.length_map, List.length_range]
  · rw [hmain]
    refine List.Pairwise.map _ ?_ (List.pairwise_lt_range _)
    intro a b hab
    have ha1 : ((a : ℚ) + 1) < ((b : ℚ) + 1) := by exact_mod_cast Nat.succ_lt_succ hab
    exact div_lt_div_of_pos_right ha1 hN
  · obtain ⟨m, hm⟩ := Nat.exists_eq_succ_of_ne_zero
      (fun h0 => hne (List.length_eq_zero.mp h0))
    rw [hmain, hm, List.range_succ, List.map_append]
    simp only [List.map_cons, List.map_nil, List.getLast?_concat]
    congr 1
    rw [div_eq_one_iff_eq (Nat.cast_ne_zero.mpr (Nat.succ_ne_zero m))]
    push_cast
    ring

/-- Witness for C4: a single candidate, one render, one progress call of
exactly `1`. -/
theorem C4_progress_calls_witness :
    (create_shorts_parallel "v" [⟨0, 10, 50⟩] [] [0]).2.getLast? = some 1 :=
  (C4_progress_calls "v" [⟨0, 10, 50⟩] [] [0] (by decide) (by decide)).2.2.2

end ShortsApp
